import Mathlib

/-!
# Verification of the delete-episode classification engine

Shallow embedding of the classification engine of `main.go` (repository
`delete-episode`): the program groups torrents by name, classifies
same-name groups by size, sorts size-differentiated groups descending,
and decides via per-file-manifest comparison whether the smaller items
("episodes") are truly contained in the largest item ("collection").

Strings are modelled as Lean `String`/`List Char` (the source operates on
Go byte strings; all comparisons here are character-wise, which agrees with
the source on the ASCII file names at issue).  Sizes are modelled as `Int`
byte counts (the source converts them to `float64`; only order and
1024-byte-tolerance comparisons are performed, on which the two agree for
integral byte sizes).  Manifest fetching (`getTorrentFiles`, an RPC in the
source) is modelled as an explicit function `Int → Option (List TorrentFile)`
passed to the engine; `none` is any fetch failure.
-/

/-- A file entry of a torrent's manifest (`transmissionrpc.TorrentFile`):
only its `Name` (the slash-separated path) is consulted by the engine. -/
structure TorrentFile where
  name : String
deriving DecidableEq, Repr

/-- The fields of `transmissionrpc.Torrent` consulted by the engine.  All
three are pointers in the source, hence `Option` here. -/
structure Torrent where
  id : Option Int
  name : Option String
  sizeWhenDone : Option Int
deriving DecidableEq, Repr

/-- `DuplicateGroup` of `main.go`: a collection torrent together with the
episode torrents judged redundant (or, in the same-size result, the
size-equal overlapping torrents). -/
structure DuplicateGroup where
  collection : Torrent
  episodes : List Torrent
  hasFileOverlaps : Bool
deriving DecidableEq, Repr

/-- `getFileName` of `main.go`: `strings.Split(path, "/")` followed by
taking the last part, i.e. the suffix of the path after the last slash. -/
def getFileName (path : String) : List Char :=
  (path.toList.reverse.takeWhile (fun c => c != '/')).reverse

/-- Character-level model of Go `strings.HasPrefix`/the prefix step of
`strings.Contains`: `sub` occurs as a contiguous substring of `s`. -/
def isSubChain (sub : List Char) : List Char → Bool
  | [] => sub.isEmpty
  | c :: cs => sub.isPrefixOf (c :: cs) || isSubChain sub cs

/-- Go `strings.Contains s sub`. -/
def strContains (s sub : List Char) : Bool :=
  isSubChain sub s

/-- Go regexp `\d` (RE2 matches ASCII digits only). -/
def isDigitChar (c : Char) : Bool :=
  '0' ≤ c && c ≤ '9'

/-- One attempt of the regex `[Ss](\d+)[Ee](\d+)` anchored at the head of
`l`.  Both `\d+` are greedy; backtracking a `\d+` cannot help this pattern
(a shorter digit run ends in a digit, which `[Ee]` cannot match), so the
maximal digit runs are the only candidates, exactly as Go's regexp finds. -/
def matchMarkerAt : List Char → Option (List Char)
  | [] => none
  | c :: rest =>
    if c == 'S' || c == 's' then
      let d1 := rest.takeWhile isDigitChar
      let r1 := rest.dropWhile isDigitChar
      if d1.isEmpty then none
      else
        match r1 with
        | [] => none
        | e :: r2 =>
          if e == 'E' || e == 'e' then
            let d2 := r2.takeWhile isDigitChar
            if d2.isEmpty then none else some (c :: (d1 ++ e :: d2))
          else none
    else none

/-- Leftmost match of `[Ss](\d+)[Ee](\d+)`, the semantics of Go's
`episodeRegex.FindStringSubmatch(...)[0]`. -/
def findMarker : List Char → Option (List Char)
  | [] => none
  | c :: cs =>
    match matchMarkerAt (c :: cs) with
    | some m => some m
    | none => findMarker cs

/-- `extractEpisodeMarker` of `main.go`: the leftmost `S<digits>E<digits>`
match in the **full path** of the file (the source applies the regex to
`file.Name`, not to the basename); `[]` models the source's `""` for "no
marker". -/
def extractEpisodeMarker (filename : String) : List Char :=
  (findMarker filename.toList).getD []

/-- The set (as a list) of episode markers contributed by a manifest:
one entry per file whose full path yields a marker (lines 484-497 of
`main.go`; the source stores them in a `map[string]bool`, of which only
emptiness and membership are consulted). -/
def collectMarkers (files : List TorrentFile) : List (List Char) :=
  files.filterMap fun f =>
    let m := extractEpisodeMarker f.name
    if m.isEmpty then none else some m

/-- The marker-conflict test of `main.go` lines 500-511: both manifests
yield at least one marker and no episode marker occurs among the
collection markers. -/
def markerConflict (collectionFiles episodeFiles : List TorrentFile) : Bool :=
  let cM := collectMarkers collectionFiles
  let eM := collectMarkers episodeFiles
  !cM.isEmpty && !eM.isEmpty && !(eM.any fun m => cM.contains m)

/-- The diagnostic overlap count computed inside the marker-conflict
branch (lines 513-525): an episode file counts when its basename and some
collection basename contain one another in either direction. -/
def conflictMatchCount (collectionFiles episodeFiles : List TorrentFile) : Nat :=
  episodeFiles.countP fun ef =>
    collectionFiles.any fun cf =>
      strContains (getFileName ef.name) (getFileName cf.name) ||
        strContains (getFileName cf.name) (getFileName ef.name)

/-- The default match count (lines 531-544): an episode file counts when
some collection basename equals its basename or contains it as a
substring (one direction only). -/
def defaultMatchCount (collectionFiles episodeFiles : List TorrentFile) : Nat :=
  episodeFiles.countP fun ef =>
    collectionFiles.any fun cf =>
      getFileName ef.name == getFileName cf.name ||
        strContains (getFileName cf.name) (getFileName ef.name)

/-- `checkActualEpisodeOverlap` of `main.go`: returns
`(isTrueOverlap, overlapCount)`. -/
def checkActualEpisodeOverlap (collectionFiles episodeFiles : List TorrentFile) :
    Bool × Nat :=
  if collectionFiles.length < episodeFiles.length then (false, 0)
  else if markerConflict collectionFiles episodeFiles then
    (false, conflictMatchCount collectionFiles episodeFiles)
  else
    (decide (defaultMatchCount collectionFiles episodeFiles ≥ episodeFiles.length / 2),
      defaultMatchCount collectionFiles episodeFiles)

/-- Outcome of processing one name group (the branches of the body of the
loop over `nameGroups` in `findCollectionsAndEpisodes`). -/
inductive GroupOutcome where
  | skippedSingle
  | sameSizeSkip
  | collectionFetchFail
  | actionable (g : DuplicateGroup)
  | onlySameSize (g : DuplicateGroup)
  | noEpisodes
deriving DecidableEq, Repr

/-- `getTorrentFiles` of `main.go`, with the RPC modelled by `fetch`:
a `nil` torrent ID or any fetch failure yields `none`. -/
def getTorrentFiles (fetch : Int → Option (List TorrentFile)) (t : Torrent) :
    Option (List TorrentFile) :=
  match t.id with
  | none => none
  | some i => fetch i

/-- The size a torrent contributes to comparisons: the source declares
`var size float64` (zero) and overwrites it only when `SizeWhenDone` is
non-nil. -/
def sizeD (t : Torrent) : Int :=
  t.sizeWhenDone.getD 0

/-- The all-same-sizes test of `main.go` lines 309-324: every member
after the first whose size is known differs from the base size (the first
member's size, or 0 when unknown) by at most 1024 bytes.  Members with
unknown size are skipped by the loop and cannot break equality. -/
def allSameSizesCheck : List Torrent → Bool
  | [] => true
  | g0 :: rest =>
    rest.all fun t =>
      match t.sizeWhenDone with
      | none => true
      | some s => decide ((s - sizeD g0).natAbs ≤ 1024)

/-- The swap condition of the sorting loops (lines 336-345): swap only
when both sizes are known and the earlier is strictly smaller. -/
def swapNeeded (a b : Torrent) : Bool :=
  match a.sizeWhenDone, b.sizeWhenDone with
  | some x, some y => decide (x < y)
  | _, _ => false

/-- One pass of the inner loop `for j := i+1 ...`: scanning the suffix
with current front value `x`, swapping whenever `p x y`.  Returns the
value left at position `i` after the pass together with the values left
at positions `i+1 ...`. -/
def selectPass (p : α → α → Bool) : α → List α → α × List α
  | x, [] => (x, [])
  | x, y :: ys =>
    if p x y then
      let s := selectPass p y ys
      (s.1, x :: s.2)
    else
      let s := selectPass p x ys
      (s.1, y :: s.2)

/-- The nested swap loops of lines 336-346, fuelled by the list length
(`selectPass` preserves length, so the fuel never runs out). -/
def exchangeSortFuel (p : α → α → Bool) : Nat → List α → List α
  | 0, l => l
  | _, [] => []
  | n + 1, x :: xs =>
    let s := selectPass p x xs
    s.1 :: exchangeSortFuel p n s.2

/-- The in-place exchange sort of `main.go` lines 336-346 (descending by
size when all sizes are known; pairs with an unknown size are never
swapped). -/
def exchangeSort (p : α → α → Bool) (l : List α) : List α :=
  exchangeSortFuel p l.length l

/-- The sorted copy `sortedGroup` of a name group. -/
def sortGroup (g : List Torrent) : List Torrent :=
  exchangeSort swapNeeded g

/-- The per-candidate loop of lines 371-408: returns
`(episodes, sameSizeEpisodes, hasFileOverlaps)`.  A candidate whose
manifest cannot be fetched is skipped; one with a true overlap goes to
`sameSizeEpisodes` when its size is within 1024 bytes of the collection
size and to `episodes` otherwise; overlap without a true-episode verdict
only feeds a statistics counter. -/
def classifyCandidates (fetch : Int → Option (List TorrentFile))
    (collectionFiles : List TorrentFile) (collectionSize : Int) :
    List Torrent → List Torrent × List Torrent × Bool
  | [] => ([], [], false)
  | e :: rest =>
    match getTorrentFiles fetch e with
    | none => classifyCandidates fetch collectionFiles collectionSize rest
    | some epFiles =>
      let r := classifyCandidates fetch collectionFiles collectionSize rest
      if (checkActualEpisodeOverlap collectionFiles epFiles).1 then
        if (sizeD e - collectionSize).natAbs ≤ 1024 then
          (r.1, e :: r.2.1, true)
        else
          (e :: r.1, r.2.1, true)
      else
        r

/-- Lines 413-444: resolve the per-candidate results into the group's
outcome.  `episodes` non-empty wins over `sameSizeEpisodes` non-empty. -/
def resolveGroup (collection : Torrent) (episodes sameSizeEpisodes : List Torrent)
    (hasFileOverlaps : Bool) : GroupOutcome :=
  if hasFileOverlaps then
    if episodes ≠ [] then
      .actionable ⟨collection, episodes, hasFileOverlaps⟩
    else if sameSizeEpisodes ≠ [] then
      .onlySameSize ⟨collection, sameSizeEpisodes, hasFileOverlaps⟩
    else .noEpisodes
  else .noEpisodes

/-- Processing of a sorted group from line 349 on: the head is the
candidate collection, the tail are the candidate episodes. -/
def processSorted (fetch : Int → Option (List TorrentFile)) :
    List Torrent → GroupOutcome
  | [] => .skippedSingle
  | collection :: candidates =>
    match getTorrentFiles fetch collection with
    | none => .collectionFetchFail
    | some collectionFiles =>
      let r := classifyCandidates fetch collectionFiles (sizeD collection) candidates
      resolveGroup collection r.1 r.2.1 r.2.2

/-- The body of the loop over name groups in `findCollectionsAndEpisodes`
(lines 305-453). -/
def processGroup (fetch : Int → Option (List TorrentFile)) :
    List Torrent → GroupOutcome
  | [] => .skippedSingle
  | [_] => .skippedSingle
  | g0 :: g1 :: rest =>
    if allSameSizesCheck (g0 :: g1 :: rest) then .sameSizeSkip
    else processSorted fetch (sortGroup (g0 :: g1 :: rest))

/-- The distinct names occurring among the torrents (the key set of the
Go map `nameGroups`; its iteration order is unspecified in Go, so any
fixed order is a faithful model). -/
def groupNames (ts : List Torrent) : List String :=
  (ts.filterMap Torrent.name).dedup

/-- The name grouping of lines 293-298: items with a `nil` name are
discarded; each name maps to the list of its torrents in input order. -/
def nameGroups (ts : List Torrent) : List (String × List Torrent) :=
  (groupNames ts).map fun n => (n, ts.filter fun t => t.name == some n)

/-- `findCollectionsAndEpisodes` of `main.go`: the pair of the
actionable result map and the only-same-size result map, each keyed by
group name. -/
def findCollectionsAndEpisodes (fetch : Int → Option (List TorrentFile))
    (ts : List Torrent) :
    List (String × DuplicateGroup) × List (String × DuplicateGroup) :=
  let gs := nameGroups ts
  (gs.filterMap fun p =>
      match processGroup fetch p.2 with
      | .actionable d => some (p.1, d)
      | _ => none,
    gs.filterMap fun p =>
      match processGroup fetch p.2 with
      | .onlySameSize d => some (p.1, d)
      | _ => none)

/-- Modelled from the spec: the matching rule of the spec's "Default
matching" step — "an exact match or a containment match (either string
contains the other)" — which is to be compared with the source's
`defaultMatchCount`. -/
def specEitherMatchCount (collectionFiles episodeFiles : List TorrentFile) : Nat :=
  episodeFiles.countP fun ef =>
    collectionFiles.any fun cf =>
      getFileName ef.name == getFileName cf.name ||
        strContains (getFileName cf.name) (getFileName ef.name) ||
        strContains (getFileName ef.name) (getFileName cf.name)

/-- Modelled from the spec: markers extracted from **basenames** (the
spec's step 1 normalizes paths to basenames before marker extraction),
to be compared with the source's `collectMarkers`, which scans full
paths. -/
def specBasenameMarkers (files : List TorrentFile) : List (List Char) :=
  files.filterMap fun f =>
    let m := (findMarker (getFileName f.name)).getD []
    if m.isEmpty then none else some m

/-- Modelled from the spec: the stable descending sort the Collection
Selector is specified to perform ("ties broken by original relative
order — stable sort"), realized as the standard stable insertion sort
that moves an element before another only when strictly larger. -/
def specStableInsertDesc (x : Torrent) : List Torrent → List Torrent
  | [] => [x]
  | y :: ys => if sizeD y ≤ sizeD x then x :: y :: ys else y :: specStableInsertDesc x ys

/-- Modelled from the spec: stable descending sort by `sizeBytes`. -/
def specStableSortDesc : List Torrent → List Torrent
  | [] => []
  | x :: xs => specStableInsertDesc x (specStableSortDesc xs)

/-- Modelled from the spec: "every two of its members have sizes
differing by at most 1024 bytes" — pairwise size equality across the
group, to be compared with the source's first-member-based check. -/
def specPairwiseSizeEqual (g : List Torrent) : Prop :=
  ∀ a ∈ g, ∀ b ∈ g, (sizeD a - sizeD b).natAbs ≤ 1024

theorem isSubChain_correct (sub l : List Char) : isSubChain sub l = true ↔ sub <:+: l := by
  induction l with
  | nil => simp [isSubChain, List.infix_nil, List.isEmpty_iff]
  | cons c cs ih =>
    simp [isSubChain, List.infix_cons_iff, List.isPrefixOf_iff_prefix, ih]

theorem strContains_iff (s sub : List Char) : strContains s sub = true ↔ sub <:+: s :=
  isSubChain_correct sub s

/-- The default match count, characterized propositionally. -/
theorem defaultMatchCount_spec (cf ef : List TorrentFile) :
    defaultMatchCount cf ef = ef.countP fun e =>
      decide (∃ c ∈ cf, getFileName e.name = getFileName c.name ∨
        getFileName e.name <:+: getFileName c.name) := by
  unfold defaultMatchCount
  refine List.countP_congr fun e _ => ?_
  simp [List.any_eq_true, strContains_iff]

/-- The conflict-branch diagnostic count, characterized propositionally. -/
theorem conflictMatchCount_spec (cf ef : List TorrentFile) :
    conflictMatchCount cf ef = ef.countP fun e =>
      decide (∃ c ∈ cf, getFileName c.name <:+: getFileName e.name ∨
        getFileName e.name <:+: getFileName c.name) := by
  unfold conflictMatchCount
  refine List.countP_congr fun e _ => ?_
  simp [List.any_eq_true, strContains_iff]

theorem mem_collectMarkers (files : List TorrentFile) (m : List Char) :
    m ∈ collectMarkers files ↔
      m ≠ [] ∧ ∃ f ∈ files, extractEpisodeMarker f.name = m := by
  simp only [collectMarkers, List.mem_filterMap]
  constructor
  · rintro ⟨f, hf, hm⟩
    split at hm
    · exact absurd hm (by simp)
    · next h =>
      obtain rfl : extractEpisodeMarker f.name = m := by
        simpa using hm
      exact ⟨by simpa [List.isEmpty_iff] using h, f, hf, rfl⟩
  · rintro ⟨hm, f, hf, rfl⟩
    exact ⟨f, hf, by simp [List.isEmpty_iff, hm]⟩

/-- The marker-conflict test, characterized via the marker lists. -/
theorem markerConflict_spec (cf ef : List TorrentFile) :
    markerConflict cf ef = true ↔
      collectMarkers cf ≠ [] ∧ collectMarkers ef ≠ [] ∧
        ∀ m ∈ collectMarkers ef, m ∉ collectMarkers cf := by
  simp [markerConflict, List.any_eq_true, List.isEmpty_iff, List.elem_iff, and_assoc]

/-- **C9**: a collection manifest with strictly fewer files than the
episode manifest is rejected outright with `(false, 0)`, whatever the
file contents (so in particular no marker or basename information enters
the verdict). -/
theorem collection_fewer_files_rejected (cf ef : List TorrentFile)
    (h : cf.length < ef.length) :
    checkActualEpisodeOverlap cf ef = (false, 0) := by
  simp [checkActualEpisodeOverlap, h]

theorem collection_fewer_files_rejected_witness :
    checkActualEpisodeOverlap [⟨"S01E01.mkv"⟩] [⟨"S01E01.mkv"⟩, ⟨"S01E02.mkv"⟩] = (false, 0) :=
  collection_fewer_files_rejected _ _ (by decide)

/-- **C3**: when the fewer-files guard and the marker-conflict
short-circuit do not fire, the analyzer answers `true` exactly when the
default match count reaches `floor(episodeFileCount / 2)`, and the
returned count is that default match count. -/
theorem majority_threshold_decision (cf ef : List TorrentFile)
    (hlen : ef.length ≤ cf.length) (hconf : markerConflict cf ef = false) :
    ((checkActualEpisodeOverlap cf ef).1 = true ↔
        defaultMatchCount cf ef ≥ ef.length / 2) ∧
      (checkActualEpisodeOverlap cf ef).2 = defaultMatchCount cf ef := by
  simp [checkActualEpisodeOverlap, Nat.not_lt.2 hlen, hconf]

theorem majority_threshold_decision_witness :
    ((checkActualEpisodeOverlap
        [⟨"S01E01.mkv"⟩, ⟨"S01E02.mkv"⟩, ⟨"S01E03.mkv"⟩] [⟨"S01E02.mkv"⟩]).1 = true ↔
      defaultMatchCount
        [⟨"S01E01.mkv"⟩, ⟨"S01E02.mkv"⟩, ⟨"S01E03.mkv"⟩] [⟨"S01E02.mkv"⟩] ≥
        ([(⟨"S01E02.mkv"⟩ : TorrentFile)]).length / 2) ∧
      (checkActualEpisodeOverlap
        [⟨"S01E01.mkv"⟩, ⟨"S01E02.mkv"⟩, ⟨"S01E03.mkv"⟩] [⟨"S01E02.mkv"⟩]).2 =
      defaultMatchCount
        [⟨"S01E01.mkv"⟩, ⟨"S01E02.mkv"⟩, ⟨"S01E03.mkv"⟩] [⟨"S01E02.mkv"⟩] :=
  majority_threshold_decision _ _ (by decide) (by decide)

/-- **C10**: with at most one episode file, a collection of at least that
many files and no marker conflict, the majority threshold is
`floor(episodeFileCount / 2) = 0`, so the analyzer always answers `true`. -/
theorem single_file_always_overlap (cf ef : List TorrentFile)
    (hone : ef.length ≤ 1) (hlen : ef.length ≤ cf.length)
    (hconf : markerConflict cf ef = false) :
    (checkActualEpisodeOverlap cf ef).1 = true := by
  have hz : ef.length / 2 = 0 := by omega
  simp [checkActualEpisodeOverlap, Nat.not_lt.2 hlen, hconf, hz]

/-- The interesting instance of C10: zero matching basenames, yet
`isTrueOverlap = true`. -/
theorem single_file_always_overlap_witness :
    (checkActualEpisodeOverlap [⟨"wholly.different"⟩] [⟨"unrelated.mkv"⟩]).1 = true :=
  single_file_always_overlap _ _ (by decide) (by decide) (by decide)

/-- **C1 is false as stated**: with no marker conflict and equal manifest
lengths, the episode basename `"ab"` strictly contains the collection
basename `"b"`, so the spec's either-direction rule counts one match,
but the analyzer counts none (its default rule only checks whether the
collection basename contains the episode basename). -/
theorem default_matching_direction_counterexample :
    markerConflict [⟨"b"⟩] [⟨"ab"⟩] = false ∧
      ([(⟨"ab"⟩ : TorrentFile)]).length ≤ ([(⟨"b"⟩ : TorrentFile)]).length ∧
      specEitherMatchCount [⟨"b"⟩] [⟨"ab"⟩] = 1 ∧
      (checkActualEpisodeOverlap [⟨"b"⟩] [⟨"ab"⟩]).2 = 0 := by
  decide

/-- **C1 amended**: in the default matching step an episode basename is
counted iff some collection basename equals it or **contains** it; an
episode basename that strictly contains a collection basename is not
counted by that pair. -/
theorem default_matching_characterization (cf ef : List TorrentFile)
    (hlen : ef.length ≤ cf.length) (hconf : markerConflict cf ef = false) :
    (checkActualEpisodeOverlap cf ef).2 = ef.countP fun e =>
      decide (∃ c ∈ cf, getFileName e.name = getFileName c.name ∨
        getFileName e.name <:+: getFileName c.name) := by
  rw [← defaultMatchCount_spec]
  simp [checkActualEpisodeOverlap, Nat.not_lt.2 hlen, hconf]

theorem default_matching_characterization_witness :
    (checkActualEpisodeOverlap [⟨"b"⟩] [⟨"ab"⟩]).2 = [(⟨"ab"⟩ : TorrentFile)].countP
      (fun e => decide (∃ c ∈ [(⟨"b"⟩ : TorrentFile)],
        getFileName e.name = getFileName c.name ∨
          getFileName e.name <:+: getFileName c.name)) :=
  default_matching_characterization _ _ (by decide) (by decide)

/-- **C2 is false as stated**, on two counts.  First input: markers live
in directory components, so the basename marker sets are `{S01E01}` vs
`{S02E02}` (non-empty, disjoint — the claim demands `isTrueOverlap =
false`), but the source extracts markers from full paths, both of which
yield `S01E01`, so no conflict fires and the analyzer answers `true`.
Second input: basename marker sets `{S01E01}` vs `{S02E01}` are
non-empty and disjoint and one episode basename (`".mkv"`) is contained
in a collection basename, so the claim demands overlap count 1, but the
collection has fewer files than the episode, so the guard returns
`(false, 0)` before any counting. -/
theorem marker_conflict_counterexample :
    (specBasenameMarkers [⟨"d/S01E01.mkv"⟩] = ["S01E01".toList] ∧
      specBasenameMarkers [⟨"S01E01d/S02E02.mkv"⟩] = ["S02E02".toList] ∧
      (checkActualEpisodeOverlap [⟨"d/S01E01.mkv"⟩] [⟨"S01E01d/S02E02.mkv"⟩]).1 = true) ∧
    (specBasenameMarkers [⟨"S01E01.mkv"⟩] = ["S01E01".toList] ∧
      specBasenameMarkers [⟨"S02E01.x"⟩, ⟨".mkv"⟩] = ["S02E01".toList] ∧
      specEitherMatchCount [⟨"S01E01.mkv"⟩] [⟨"S02E01.x"⟩, ⟨".mkv"⟩] = 1 ∧
      checkActualEpisodeOverlap [⟨"S01E01.mkv"⟩] [⟨"S02E01.x"⟩, ⟨".mkv"⟩] = (false, 0)) := by
  decide

/-- **C2 amended**: when the collection manifest has at least as many
files as the episode's, both sides' **full paths** yield at least one
marker, and no full-path marker is shared, the analyzer returns
`isTrueOverlap = false` regardless of textual similarity, with the
overlap count equal to the number of episode basenames matching some
collection basename by containment in either direction (equality being
a special case of containment). -/
theorem marker_conflict_forces_false (cf ef : List TorrentFile)
    (hlen : ef.length ≤ cf.length)
    (hc : ∃ f ∈ cf, extractEpisodeMarker f.name ≠ [])
    (he : ∃ f ∈ ef, extractEpisodeMarker f.name ≠ [])
    (hdisj : ∀ f ∈ cf, ∀ g ∈ ef,
      extractEpisodeMarker f.name = extractEpisodeMarker g.name →
        extractEpisodeMarker f.name = []) :
    checkActualEpisodeOverlap cf ef = (false, conflictMatchCount cf ef) ∧
      conflictMatchCount cf ef = ef.countP fun e =>
        decide (∃ c ∈ cf, getFileName c.name <:+: getFileName e.name ∨
          getFileName e.name <:+: getFileName c.name) := by
  have hconf : markerConflict cf ef = true := by
    rw [markerConflict_spec]
    obtain ⟨f, hf, hfm⟩ := hc
    obtain ⟨g, hg, hgm⟩ := he
    refine ⟨?_, ?_, ?_⟩
    · intro hnil
      exact absurd (hnil ▸ (mem_collectMarkers cf _).2 ⟨hfm, f, hf, rfl⟩) (by simp)
    · intro hnil
      exact absurd (hnil ▸ (mem_collectMarkers ef _).2 ⟨hgm, g, hg, rfl⟩) (by simp)
    · intro m hme hmc
      obtain ⟨hne, g', hg', hgm'⟩ := (mem_collectMarkers ef m).1 hme
      obtain ⟨-, f', hf', hfm'⟩ := (mem_collectMarkers cf m).1 hmc
      exact hne (hfm' ▸ hdisj f' hf' g' hg' (hfm'.trans hgm'.symm))
  refine ⟨?_, conflictMatchCount_spec cf ef⟩
  simp [checkActualEpisodeOverlap, Nat.not_lt.2 hlen, hconf]

theorem marker_conflict_forces_false_witness :
    checkActualEpisodeOverlap [⟨"S01E01.mkv"⟩, ⟨"S01E02.mkv"⟩] [⟨"S03E01.mkv"⟩] =
      (false, conflictMatchCount [⟨"S01E01.mkv"⟩, ⟨"S01E02.mkv"⟩] [⟨"S03E01.mkv"⟩]) :=
  (marker_conflict_forces_false _ _ (by decide) (by decide) (by decide) (by decide)).1

theorem selectPass_length (p : α → α → Bool) (x : α) (l : List α) :
    (selectPass p x l).2.length = l.length := by
  induction l generalizing x with
  | nil => rfl
  | cons y ys ih =>
    simp only [selectPass]
    split <;> simp [ih]

theorem selectPass_perm (p : α → α → Bool) (x : α) (l : List α) :
    ((selectPass p x l).1 :: (selectPass p x l).2).Perm (x :: l) := by
  induction l generalizing x with
  | nil => exact List.Perm.refl _
  | cons y ys ih =>
    simp only [selectPass]
    split
    · exact (List.Perm.swap _ _ _).trans ((ih y).cons x)
    · exact ((List.Perm.swap _ _ _).trans ((ih x).cons y)).trans (List.Perm.swap _ _ _)

theorem exchangeSortFuel_perm (p : α → α → Bool) :
    ∀ (n : Nat) (l : List α), (exchangeSortFuel p n l).Perm l := by
  intro n
  induction n with
  | zero => intro l; cases l <;> exact List.Perm.refl _
  | succ n ih =>
    intro l
    cases l with
    | nil => exact List.Perm.refl _
    | cons x xs =>
      simp only [exchangeSortFuel]
      exact ((ih _).cons _).trans (selectPass_perm p x xs)

theorem exchangeSort_perm (p : α → α → Bool) (l : List α) :
    (exchangeSort p l).Perm l :=
  exchangeSortFuel_perm p l.length l

theorem swapNeeded_eq (a b : Torrent) (ha : a.sizeWhenDone.isSome)
    (hb : b.sizeWhenDone.isSome) :
    swapNeeded a b = decide (sizeD a < sizeD b) := by
  obtain ⟨x, hx⟩ := Option.isSome_iff_exists.1 ha
  obtain ⟨y, hy⟩ := Option.isSome_iff_exists.1 hb
  simp [swapNeeded, sizeD, hx, hy]

/-- After one inner pass of the swap loop over a group of known sizes,
the value left at the front is at least as large as every other value of
the pass. -/
theorem selectPass_max (x : Torrent) (l : List Torrent)
    (hall : ∀ t ∈ x :: l, t.sizeWhenDone.isSome) :
    sizeD x ≤ sizeD (selectPass swapNeeded x l).1 ∧
      ∀ z ∈ (selectPass swapNeeded x l).2,
        sizeD z ≤ sizeD (selectPass swapNeeded x l).1 := by
  induction l generalizing x with
  | nil => simp [selectPass]
  | cons y ys ih =>
    have hx := hall x (by simp)
    have hy := hall y (by simp)
    simp only [selectPass]
    rcases hxy : swapNeeded x y with - | -
    · have hge : sizeD y ≤ sizeD x := by
        rw [swapNeeded_eq _ _ hx hy] at hxy
        exact le_of_not_lt (of_decide_eq_false hxy)
      have ihx := ih x fun t ht => by
        rcases List.mem_cons.1 ht with rfl | ht
        · exact hx
        · exact hall t (by simp [ht])
      simp only [Bool.false_eq_true, if_false]
      refine ⟨ihx.1, fun z hz => ?_⟩
      rcases List.mem_cons.1 hz with rfl | hz
      · exact hge.trans ihx.1
      · exact ihx.2 z hz
    · have hlt : sizeD x < sizeD y := by
        rw [swapNeeded_eq _ _ hx hy] at hxy
        exact of_decide_eq_true hxy
      have ihy := ih y fun t ht => by
        rcases List.mem_cons.1 ht with rfl | ht
        · exact hy
        · exact hall t (by simp [ht])
      simp only [if_true]
      refine ⟨(le_of_lt hlt).trans ihy.1, fun z hz => ?_⟩
      rcases List.mem_cons.1 hz with rfl | hz
      · exact (le_of_lt hlt).trans ihy.1
      · exact ihy.2 z hz

theorem exchangeSortFuel_sorted :
    ∀ (n : Nat) (l : List Torrent), l.length ≤ n →
      (∀ t ∈ l, t.sizeWhenDone.isSome) →
      (exchangeSortFuel swapNeeded n l).Sorted (fun a b => sizeD b ≤ sizeD a) := by
  intro n
  induction n with
  | zero =>
    intro l hl _
    rw [List.length_eq_zero.1 (Nat.le_zero.1 hl)]
    exact List.sorted_nil
  | succ n ih =>
    intro l hl hall
    cases l with
    | nil => exact List.sorted_nil
    | cons x xs =>
      simp only [exchangeSortFuel]
      have hperm := selectPass_perm swapNeeded x xs
      have hall2 : ∀ t ∈ (selectPass swapNeeded x xs).2, t.sizeWhenDone.isSome :=
        fun t ht => hall t (hperm.mem_iff.1 (List.mem_cons_of_mem _ ht))
      have hlen : (selectPass swapNeeded x xs).2.length ≤ n := by
        rw [selectPass_length]
        exact Nat.succ_le_succ_iff.1 (by simpa using hl)
      refine List.sorted_cons.2 ⟨fun b hb => ?_, ih _ hlen hall2⟩
      have hb2 : b ∈ (selectPass swapNeeded x xs).2 :=
        (exchangeSortFuel_perm swapNeeded n _).mem_iff.1 hb
      exact (selectPass_max x xs hall).2 b hb2

theorem sortGroup_sorted (g : List Torrent)
    (hall : ∀ t ∈ g, t.sizeWhenDone.isSome) :
    (sortGroup g).Sorted (fun a b => sizeD b ≤ sizeD a) :=
  exchangeSortFuel_sorted g.length g (le_refl _) hall

/-- **C4 is false as stated**: on the SizeVaries group with sizes
`[10000, 20000, 10000, 30000]` (all known, ids 1-4), the selector's
exchange sort emits the two size-10000 members in the order id 3, id 1 —
the reverse of their original relative order — so the sort is not
stable. -/
theorem collection_selector_not_stable :
    (∀ t ∈ [(⟨some 1, some "X", some 10000⟩ : Torrent), ⟨some 2, some "X", some 20000⟩,
        ⟨some 3, some "X", some 10000⟩, ⟨some 4, some "X", some 30000⟩],
      t.sizeWhenDone.isSome) ∧
    allSameSizesCheck [⟨some 1, some "X", some 10000⟩, ⟨some 2, some "X", some 20000⟩,
        ⟨some 3, some "X", some 10000⟩, ⟨some 4, some "X", some 30000⟩] = false ∧
    sortGroup [⟨some 1, some "X", some 10000⟩, ⟨some 2, some "X", some 20000⟩,
        ⟨some 3, some "X", some 10000⟩, ⟨some 4, some "X", some 30000⟩] =
      [⟨some 4, some "X", some 30000⟩, ⟨some 2, some "X", some 20000⟩,
        ⟨some 3, some "X", some 10000⟩, ⟨some 1, some "X", some 10000⟩] ∧
    specStableSortDesc [⟨some 1, some "X", some 10000⟩, ⟨some 2, some "X", some 20000⟩,
        ⟨some 3, some "X", some 10000⟩, ⟨some 4, some "X", some 30000⟩] =
      [⟨some 4, some "X", some 30000⟩, ⟨some 2, some "X", some 20000⟩,
        ⟨some 1, some "X", some 10000⟩, ⟨some 3, some "X", some 10000⟩] := by
  decide

/-- **C4 amended**: for a group whose members all have a known size, the
Collection Selector produces a permutation of the members ordered by
`sizeBytes` non-increasing — ties in unspecified order, since the
exchange sort is not stable — and the head of that order (the candidate
collection) has maximal size among the members. -/
theorem collection_selector_sort (g : List Torrent)
    (hall : ∀ t ∈ g, t.sizeWhenDone.isSome) :
    (sortGroup g).Perm g ∧
      (sortGroup g).Sorted (fun a b => sizeD b ≤ sizeD a) ∧
      ∀ c, (sortGroup g).head? = some c → ∀ t ∈ g, sizeD t ≤ sizeD c := by
  refine ⟨exchangeSort_perm _ g, sortGroup_sorted g hall, fun c hc t ht => ?_⟩
  have hperm := exchangeSort_perm swapNeeded g
  have ht2 : t ∈ sortGroup g := hperm.mem_iff.2 ht
  cases hg : sortGroup g with
  | nil => simp [hg] at hc
  | cons c' rest =>
    have hcc : c = c' := by simp [hg] at hc; exact hc.symm
    subst hcc
    rw [hg] at ht2
    rcases List.mem_cons.1 ht2 with rfl | ht2
    · exact le_refl _
    · have := sortGroup_sorted g hall
      rw [hg] at this
      exact (List.sorted_cons.1 this).1 t ht2

theorem collection_selector_sort_witness :
    (sortGroup [(⟨some 1, some "X", some 10000⟩ : Torrent), ⟨some 2, some "X", some 30000⟩]).Perm
        [⟨some 1, some "X", some 10000⟩, ⟨some 2, some "X", some 30000⟩] ∧
      (sortGroup [(⟨some 1, some "X", some 10000⟩ : Torrent),
          ⟨some 2, some "X", some 30000⟩]).Sorted (fun a b => sizeD b ≤ sizeD a) ∧
      ∀ c, (sortGroup [(⟨some 1, some "X", some 10000⟩ : Torrent),
          ⟨some 2, some "X", some 30000⟩]).head? = some c →
        ∀ t ∈ [(⟨some 1, some "X", some 10000⟩ : Torrent), ⟨some 2, some "X", some 30000⟩],
          sizeD t ≤ sizeD c :=
  collection_selector_sort _ (by decide)

theorem classifyCandidates_subset (fetch : Int → Option (List TorrentFile))
    (cf : List TorrentFile) (cs : Int) (cands : List Torrent) :
    (∀ t ∈ (classifyCandidates fetch cf cs cands).1, t ∈ cands) ∧
      ∀ t ∈ (classifyCandidates fetch cf cs cands).2.1, t ∈ cands := by
  induction cands with
  | nil => simp [classifyCandidates]
  | cons a rest ih =>
    simp only [classifyCandidates]
    rcases hfa : getTorrentFiles fetch a with - | fl
    · simp only [hfa]
      exact ⟨fun t ht => List.mem_cons_of_mem _ (ih.1 t ht),
        fun t ht => List.mem_cons_of_mem _ (ih.2 t ht)⟩
    · simp only [hfa]
      by_cases h1 : (checkActualEpisodeOverlap cf fl).1 = true
      · by_cases h2 : (sizeD a - cs).natAbs ≤ 1024
        · rw [if_pos h1, if_pos h2]
          refine ⟨fun t ht => List.mem_cons_of_mem _ (ih.1 t ht), fun t ht => ?_⟩
          rcases List.mem_cons.1 ht with rfl | ht
          · exact List.mem_cons_self _ _
          · exact List.mem_cons_of_mem _ (ih.2 t ht)
        · rw [if_pos h1, if_neg h2]
          refine ⟨fun t ht => ?_, fun t ht => List.mem_cons_of_mem _ (ih.2 t ht)⟩
          rcases List.mem_cons.1 ht with rfl | ht
          · exact List.mem_cons_self _ _
          · exact List.mem_cons_of_mem _ (ih.1 t ht)
      · rw [if_neg h1]
        exact ⟨fun t ht => List.mem_cons_of_mem _ (ih.1 t ht),
          fun t ht => List.mem_cons_of_mem _ (ih.2 t ht)⟩

theorem classifyCandidates_overlap_of_episodes (fetch : Int → Option (List TorrentFile))
    (cf : List TorrentFile) (cs : Int) (cands : List Torrent)
    (h : (classifyCandidates fetch cf cs cands).1 ≠ [] ∨
      (classifyCandidates fetch cf cs cands).2.1 ≠ []) :
    (classifyCandidates fetch cf cs cands).2.2 = true := by
  induction cands with
  | nil => simp [classifyCandidates] at h
  | cons a rest ih =>
    simp only [classifyCandidates] at h ⊢
    rcases hfa : getTorrentFiles fetch a with - | fl
    · simp only [hfa] at h ⊢
      exact ih h
    · simp only [hfa] at h ⊢
      by_cases h1 : (checkActualEpisodeOverlap cf fl).1 = true
      · by_cases h2 : (sizeD a - cs).natAbs ≤ 1024
        · rw [if_pos h1, if_pos h2]
        · rw [if_pos h1, if_neg h2]
      · rw [if_neg h1] at h ⊢
        exact ih h

theorem resolveGroup_ne_sameSizeSkip (c : Torrent) (eps same : List Torrent) (hov : Bool) :
    resolveGroup c eps same hov ≠ .sameSizeSkip := by
  unfold resolveGroup
  split_ifs <;> simp

/-- **C7**: the Group Resolver's filing and verdict rules.  (1) A
candidate episode whose manifest was fetched and judged a true overlap
is filed under the same-size (ambiguous) list when its size is within
1024 bytes of the collection size, and under the duplicate-episodes list
otherwise.  (2) The group resolves to `actionable` (spec `Actionable`)
whenever the duplicate list is non-empty — taking priority over a
non-empty ambiguous list — and to `onlySameSize` (spec `SameSizeOnly`)
when the duplicate list is empty and the ambiguous list is non-empty.
(3) Conversely the resolver emits those outcomes in no other situation. -/
theorem group_resolver_filing :
    (∀ (fetch : Int → Option (List TorrentFile)) (cf : List TorrentFile) (cs : Int)
        (cands : List Torrent) (e : Torrent) (epFiles : List TorrentFile),
      e ∈ cands → getTorrentFiles fetch e = some epFiles →
      (checkActualEpisodeOverlap cf epFiles).1 = true →
      if (sizeD e - cs).natAbs ≤ 1024 then
        e ∈ (classifyCandidates fetch cf cs cands).2.1
      else
        e ∈ (classifyCandidates fetch cf cs cands).1) ∧
    (∀ (fetch : Int → Option (List TorrentFile)) (cf : List TorrentFile) (cs : Int)
        (cands : List Torrent) (c : Torrent),
      ((classifyCandidates fetch cf cs cands).1 ≠ [] →
        resolveGroup c (classifyCandidates fetch cf cs cands).1
            (classifyCandidates fetch cf cs cands).2.1
            (classifyCandidates fetch cf cs cands).2.2 =
          .actionable ⟨c, (classifyCandidates fetch cf cs cands).1, true⟩) ∧
      ((classifyCandidates fetch cf cs cands).1 = [] →
        (classifyCandidates fetch cf cs cands).2.1 ≠ [] →
        resolveGroup c (classifyCandidates fetch cf cs cands).1
            (classifyCandidates fetch cf cs cands).2.1
            (classifyCandidates fetch cf cs cands).2.2 =
          .onlySameSize ⟨c, (classifyCandidates fetch cf cs cands).2.1, true⟩)) ∧
    (∀ (c : Torrent) (eps same : List Torrent) (hov : Bool) (d : DuplicateGroup),
      (resolveGroup c eps same hov = .actionable d → eps ≠ [] ∧ d = ⟨c, eps, hov⟩) ∧
      (resolveGroup c eps same hov = .onlySameSize d →
        eps = [] ∧ same ≠ [] ∧ d = ⟨c, same, hov⟩)) := by
  refine ⟨?_, ?_, ?_⟩
  · intro fetch cf cs cands e epFiles
    induction cands with
    | nil => intro h; cases h
    | cons a rest ih =>
      intro he hf hov
      rcases List.mem_cons.1 he with rfl | he'
      · simp only [classifyCandidates, hf]
        rw [if_pos hov]
        by_cases h2 : (sizeD e - cs).natAbs ≤ 1024
        · rw [if_pos h2, if_pos h2]
          exact List.mem_cons_self _ _
        · rw [if_neg h2, if_neg h2]
          exact List.mem_cons_self _ _
      · have ihm := ih he' hf hov
        simp only [classifyCandidates]
        rcases hfa : getTorrentFiles fetch a with - | fl
        · simp only [hfa]
          exact ihm
        · simp only [hfa]
          by_cases h2e : (sizeD e - cs).natAbs ≤ 1024
          · rw [if_pos h2e] at ihm ⊢
            by_cases h1 : (checkActualEpisodeOverlap cf fl).1 = true
            · by_cases h2a : (sizeD a - cs).natAbs ≤ 1024
              · rw [if_pos h1, if_pos h2a]
                exact List.mem_cons_of_mem _ ihm
              · rw [if_pos h1, if_neg h2a]
                exact ihm
            · rw [if_neg h1]
              exact ihm
          · rw [if_neg h2e] at ihm ⊢
            by_cases h1 : (checkActualEpisodeOverlap cf fl).1 = true
            · by_cases h2a : (sizeD a - cs).natAbs ≤ 1024
              · rw [if_pos h1, if_pos h2a]
                exact ihm
              · rw [if_pos h1, if_neg h2a]
                exact List.mem_cons_of_mem _ ihm
            · rw [if_neg h1]
              exact ihm
  · intro fetch cf cs cands c
    constructor
    · intro h
      have hov := classifyCandidates_overlap_of_episodes fetch cf cs cands (Or.inl h)
      rw [hov]
      simp [resolveGroup, h]
    · intro h1 h2
      have hov := classifyCandidates_overlap_of_episodes fetch cf cs cands (Or.inr h2)
      rw [hov]
      simp [resolveGroup, h1, h2]
  · intro c eps same hov d
    constructor <;> intro h <;> unfold resolveGroup at h <;> split_ifs at h <;>
      simp_all [GroupOutcome.actionable.injEq, GroupOutcome.onlySameSize.injEq]

theorem group_resolver_filing_witness :
    if (sizeD (⟨some 2, some "X", some 1500000⟩ : Torrent) - 5000000).natAbs ≤ 1024 then
      (⟨some 2, some "X", some 1500000⟩ : Torrent) ∈
        (classifyCandidates (fun i => if i = 2 then some [⟨"S01E02.mkv"⟩] else none)
          [⟨"S01E01.mkv"⟩, ⟨"S01E02.mkv"⟩, ⟨"S01E03.mkv"⟩] 5000000
          [⟨some 2, some "X", some 1500000⟩]).2.1
    else
      (⟨some 2, some "X", some 1500000⟩ : Torrent) ∈
        (classifyCandidates (fun i => if i = 2 then some [⟨"S01E02.mkv"⟩] else none)
          [⟨"S01E01.mkv"⟩, ⟨"S01E02.mkv"⟩, ⟨"S01E03.mkv"⟩] 5000000
          [⟨some 2, some "X", some 1500000⟩]).1 :=
  group_resolver_filing.1 (fun i => if i = 2 then some [⟨"S01E02.mkv"⟩] else none)
    [⟨"S01E01.mkv"⟩, ⟨"S01E02.mkv"⟩, ⟨"S01E03.mkv"⟩] 5000000
    [⟨some 2, some "X", some 1500000⟩] ⟨some 2, some "X", some 1500000⟩
    [⟨"S01E02.mkv"⟩] (by decide) (by decide) (by decide)

theorem resolveGroup_actionable_inv {c : Torrent} {eps same : List Torrent} {hov : Bool}
    {d : DuplicateGroup} (h : resolveGroup c eps same hov = .actionable d) :
    eps ≠ [] ∧ d = ⟨c, eps, hov⟩ := by
  unfold resolveGroup at h
  split_ifs at h <;> simp_all

theorem resolveGroup_onlySameSize_inv {c : Torrent} {eps same : List Torrent} {hov : Bool}
    {d : DuplicateGroup} (h : resolveGroup c eps same hov = .onlySameSize d) :
    eps = [] ∧ same ≠ [] ∧ d = ⟨c, same, hov⟩ := by
  unfold resolveGroup at h
  split_ifs at h <;> simp_all

theorem mem_nameGroups {ts : List Torrent} {n : String} {g : List Torrent}
    (h : (n, g) ∈ nameGroups ts) :
    g = ts.filter fun t => t.name == some n := by
  simp only [nameGroups, List.mem_map, Prod.mk.injEq] at h
  obtain ⟨m, _, rfl, rfl⟩ := h
  rfl

theorem nameGroups_member_name {ts : List Torrent} {n : String} {g : List Torrent}
    {t : Torrent} (h : (n, g) ∈ nameGroups ts) (ht : t ∈ g) :
    t.name = some n := by
  rw [mem_nameGroups h] at ht
  simpa using (List.mem_filter.1 ht).2

theorem nameGroups_unique {ts : List Torrent} {n : String} {g g' : List Torrent}
    (h : (n, g) ∈ nameGroups ts) (h' : (n, g') ∈ nameGroups ts) : g = g' := by
  rw [mem_nameGroups h, mem_nameGroups h']

theorem processSorted_members {fetch : Int → Option (List TorrentFile)} {l : List Torrent}
    {d : DuplicateGroup}
    (h : processSorted fetch l = .actionable d ∨ processSorted fetch l = .onlySameSize d) :
    d.collection ∈ l ∧ ∀ t ∈ d.episodes, t ∈ l := by
  cases l with
  | nil =>
    simp only [processSorted] at h
    rcases h with h | h <;> exact GroupOutcome.noConfusion h
  | cons c cands =>
    simp only [processSorted] at h
    rcases hfc : getTorrentFiles fetch c with - | cf
    · simp only [hfc] at h
      rcases h with h | h <;> exact GroupOutcome.noConfusion h
    · simp only [hfc] at h
      have hsub := classifyCandidates_subset fetch cf (sizeD c) cands
      rcases h with h | h
      · obtain ⟨-, rfl⟩ := resolveGroup_actionable_inv h
        exact ⟨List.mem_cons_self _ _, fun t ht => List.mem_cons_of_mem _ (hsub.1 t ht)⟩
      · obtain ⟨-, -, rfl⟩ := resolveGroup_onlySameSize_inv h
        exact ⟨List.mem_cons_self _ _, fun t ht => List.mem_cons_of_mem _ (hsub.2 t ht)⟩

theorem processGroup_members {fetch : Int → Option (List TorrentFile)} {g : List Torrent}
    {d : DuplicateGroup}
    (h : processGroup fetch g = .actionable d ∨ processGroup fetch g = .onlySameSize d) :
    d.collection ∈ g ∧ ∀ t ∈ d.episodes, t ∈ g := by
  match g with
  | [] =>
    simp only [processGroup] at h
    rcases h with h | h <;> exact GroupOutcome.noConfusion h
  | [x] =>
    simp only [processGroup] at h
    rcases h with h | h <;> exact GroupOutcome.noConfusion h
  | g0 :: g1 :: rest =>
    simp only [processGroup] at h
    by_cases hs : allSameSizesCheck (g0 :: g1 :: rest) = true
    · rw [if_pos hs] at h
      rcases h with h | h <;> exact GroupOutcome.noConfusion h
    · rw [if_neg hs] at h
      have hm := processSorted_members h
      have hperm := exchangeSort_perm swapNeeded (g0 :: g1 :: rest)
      exact ⟨hperm.mem_iff.1 hm.1, fun t ht => hperm.mem_iff.1 (hm.2 t ht)⟩

theorem mem_find_actionable {fetch : Int → Option (List TorrentFile)} {ts : List Torrent}
    {n : String} {d : DuplicateGroup} :
    (n, d) ∈ (findCollectionsAndEpisodes fetch ts).1 ↔
      ∃ g, (n, g) ∈ nameGroups ts ∧ processGroup fetch g = .actionable d := by
  simp only [findCollectionsAndEpisodes, List.mem_filterMap]
  constructor
  · rintro ⟨⟨m, g⟩, hmem, hmatch⟩
    rcases ho : processGroup fetch g with - | - | - | d' | d' | - <;> rw [ho] at hmatch <;>
      simp only [Option.some.injEq, Prod.mk.injEq, reduceCtorEq] at hmatch
    obtain ⟨rfl, rfl⟩ := hmatch
    exact ⟨g, hmem, ho⟩
  · rintro ⟨g, hmem, ho⟩
    exact ⟨(n, g), hmem, by rw [ho]⟩

theorem mem_find_onlySameSize {fetch : Int → Option (List TorrentFile)} {ts : List Torrent}
    {n : String} {d : DuplicateGroup} :
    (n, d) ∈ (findCollectionsAndEpisodes fetch ts).2 ↔
      ∃ g, (n, g) ∈ nameGroups ts ∧ processGroup fetch g = .onlySameSize d := by
  simp only [findCollectionsAndEpisodes, List.mem_filterMap]
  constructor
  · rintro ⟨⟨m, g⟩, hmem, hmatch⟩
    rcases ho : processGroup fetch g with - | - | - | d' | d' | - <;> rw [ho] at hmatch <;>
      simp only [Option.some.injEq, Prod.mk.injEq, reduceCtorEq] at hmatch
    obtain ⟨rfl, rfl⟩ := hmatch
    exact ⟨g, hmem, ho⟩
  · rintro ⟨g, hmem, ho⟩
    exact ⟨(n, g), hmem, by rw [ho]⟩

theorem processSorted_ne_sameSizeSkip (fetch : Int → Option (List TorrentFile))
    (l : List Torrent) : processSorted fetch l ≠ .sameSizeSkip := by
  cases l with
  | nil =>
    simp only [processSorted]
    exact fun h => GroupOutcome.noConfusion h
  | cons c cands =>
    simp only [processSorted]
    rcases hfc : getTorrentFiles fetch c with - | cf
    · simp only [hfc]
      exact fun h => GroupOutcome.noConfusion h
    · simp only [hfc]
      exact resolveGroup_ne_sameSizeSkip _ _ _ _

/-- **C5 is false as stated**: the group with sizes `[1000, 0, 2000]`
(all known) is classified AllEqualSize by the source — every later
member is within 1024 bytes of the *first* — and skipped as same-size,
although the members of sizes 0 and 2000 differ by 2000 bytes, so the
claimed pairwise condition fails. -/
theorem size_classifier_not_pairwise :
    allSameSizesCheck [(⟨some 1, some "X", some 1000⟩ : Torrent),
        ⟨some 2, some "X", some 0⟩, ⟨some 3, some "X", some 2000⟩] = true ∧
      processGroup (fun _ => none) [(⟨some 1, some "X", some 1000⟩ : Torrent),
        ⟨some 2, some "X", some 0⟩, ⟨some 3, some "X", some 2000⟩] = .sameSizeSkip ∧
      ¬ specPairwiseSizeEqual [(⟨some 1, some "X", some 1000⟩ : Torrent),
        ⟨some 2, some "X", some 0⟩, ⟨some 3, some "X", some 2000⟩] := by
  refine ⟨by decide, by decide, fun h => ?_⟩
  have h23 := h ⟨some 2, some "X", some 0⟩ (by decide) ⟨some 3, some "X", some 2000⟩ (by decide)
  exact absurd h23 (by decide)

/-- **C5 amended**: a NameGroup with at least two members is classified
AllEqualSize iff every member after the first whose size is known
differs from the reference size — the first member's size, or 0 when the
first member's size is unknown — by at most 1024 bytes.  The comparison
is against the first member only (not pairwise), and members with
unknown sizes never break equality. -/
theorem size_classifier_characterization :
    (∀ (g0 : Torrent) (rest : List Torrent),
      allSameSizesCheck (g0 :: rest) = true ↔
        ∀ t ∈ rest, ∀ s : Int, t.sizeWhenDone = some s →
          (s - sizeD g0).natAbs ≤ 1024) ∧
    ∀ (fetch : Int → Option (List TorrentFile)) (g0 g1 : Torrent) (rest : List Torrent),
      processGroup fetch (g0 :: g1 :: rest) = .sameSizeSkip ↔
        allSameSizesCheck (g0 :: g1 :: rest) = true := by
  constructor
  · intro g0 rest
    simp only [allSameSizesCheck, List.all_eq_true]
    constructor
    · intro h t ht s hs
      have ht2 := h t ht
      rw [hs] at ht2
      exact of_decide_eq_true ht2
    · intro h t ht
      cases hts : t.sizeWhenDone with
      | none => rfl
      | some s => exact decide_eq_true (h t ht s hts)
  · intro fetch g0 g1 rest
    constructor
    · intro h
      by_contra hs
      simp only [processGroup] at h
      rw [if_neg hs] at h
      exact processSorted_ne_sameSizeSkip fetch _ h
    · intro h
      simp only [processGroup]
      rw [if_pos h]

theorem size_classifier_characterization_witness :
    allSameSizesCheck [(⟨some 1, some "X", some 5000⟩ : Torrent), ⟨some 2, some "X", some 5500⟩] =
        true ↔
      ∀ t ∈ [(⟨some 2, some "X", some 5500⟩ : Torrent)], ∀ s : Int, t.sizeWhenDone = some s →
        (s - sizeD (⟨some 1, some "X", some 5000⟩ : Torrent)).natAbs ≤ 1024 :=
  size_classifier_characterization.1 ⟨some 1, some "X", some 5000⟩
    [⟨some 2, some "X", some 5500⟩]

/-- **C6 is false as stated**: two items both named "X" with equal size
5000000 form an AllEqualSize group, but the analyzer's output contains
it in *neither* result — in particular not in the same-size result —
even though both manifests are fetchable and identical. -/
theorem same_size_group_absent_from_results :
    allSameSizesCheck [(⟨some 1, some "X", some 5000000⟩ : Torrent),
        ⟨some 2, some "X", some 5000000⟩] = true ∧
      findCollectionsAndEpisodes (fun _ => some [⟨"show.mkv"⟩])
        [⟨some 1, some "X", some 5000000⟩, ⟨some 2, some "X", some 5000000⟩] = ([], []) := by
  decide

/-- **C6 amended**: an AllEqualSize NameGroup with at least two members
is skipped outright: its outcome is `sameSizeSkip` for *every* manifest
oracle (so no member's manifest is ever consulted), its name appears in
neither result map, and none of its members ever appears as a collection
or among the episodes of any reported group. -/
theorem allEqualSize_group_skipped (fetch : Int → Option (List TorrentFile))
    (ts : List Torrent) (n : String) (g : List Torrent)
    (hmem : (n, g) ∈ nameGroups ts) (hlen : 2 ≤ g.length)
    (heq : allSameSizesCheck g = true) :
    processGroup fetch g = .sameSizeSkip ∧
      (∀ d, ¬ (n, d) ∈ (findCollectionsAndEpisodes fetch ts).1 ∧
        ¬ (n, d) ∈ (findCollectionsAndEpisodes fetch ts).2) ∧
      ∀ t ∈ g, ∀ (n' : String) (d : DuplicateGroup),
        ((n', d) ∈ (findCollectionsAndEpisodes fetch ts).1 ∨
          (n', d) ∈ (findCollectionsAndEpisodes fetch ts).2) →
        d.collection ≠ t ∧ t ∉ d.episodes := by
  have hskip : processGroup fetch g = .sameSizeSkip := by
    cases g with
    | nil => simp at hlen
    | cons g0 r =>
      cases r with
      | nil => simp at hlen
      | cons g1 rest =>
        simp only [processGroup]
        rw [if_pos heq]
  refine ⟨hskip, fun d => ⟨fun hc => ?_, fun hc => ?_⟩, fun t ht n' d hd => ?_⟩
  · obtain ⟨g', hg', ho⟩ := mem_find_actionable.1 hc
    rw [nameGroups_unique hg' hmem, hskip] at ho
    exact GroupOutcome.noConfusion ho
  · obtain ⟨g', hg', ho⟩ := mem_find_onlySameSize.1 hc
    rw [nameGroups_unique hg' hmem, hskip] at ho
    exact GroupOutcome.noConfusion ho
  · rcases hd with hd | hd
    · obtain ⟨g', hg', ho⟩ := mem_find_actionable.1 hd
      have hmm := processGroup_members (Or.inl ho)
      have contra : t ∈ g' → False := by
        intro htg'
        have hn' := nameGroups_member_name hg' htg'
        have hn := nameGroups_member_name hmem ht
        obtain rfl : n' = n := by
          rw [hn] at hn'
          exact (Option.some.inj hn').symm
        rw [nameGroups_unique hg' hmem, hskip] at ho
        exact GroupOutcome.noConfusion ho
      exact ⟨fun hcol => contra (hcol ▸ hmm.1), fun hep => contra (hmm.2 t hep)⟩
    · obtain ⟨g', hg', ho⟩ := mem_find_onlySameSize.1 hd
      have hmm := processGroup_members (Or.inr ho)
      have contra : t ∈ g' → False := by
        intro htg'
        have hn' := nameGroups_member_name hg' htg'
        have hn := nameGroups_member_name hmem ht
        obtain rfl : n' = n := by
          rw [hn] at hn'
          exact (Option.some.inj hn').symm
        rw [nameGroups_unique hg' hmem, hskip] at ho
        exact GroupOutcome.noConfusion ho
      exact ⟨fun hcol => contra (hcol ▸ hmm.1), fun hep => contra (hmm.2 t hep)⟩

theorem allEqualSize_group_skipped_witness :
    processGroup (fun _ => some [⟨"show.mkv"⟩])
        [(⟨some 1, some "X", some 5000000⟩ : Torrent), ⟨some 2, some "X", some 5000000⟩] =
        .sameSizeSkip ∧
      (∀ d, ¬ ("X", d) ∈ (findCollectionsAndEpisodes (fun _ => some [⟨"show.mkv"⟩])
          [(⟨some 1, some "X", some 5000000⟩ : Torrent),
            ⟨some 2, some "X", some 5000000⟩]).1 ∧
        ¬ ("X", d) ∈ (findCollectionsAndEpisodes (fun _ => some [⟨"show.mkv"⟩])
          [(⟨some 1, some "X", some 5000000⟩ : Torrent),
            ⟨some 2, some "X", some 5000000⟩]).2) ∧
      ∀ t ∈ [(⟨some 1, some "X", some 5000000⟩ : Torrent), ⟨some 2, some "X", some 5000000⟩],
        ∀ (n' : String) (d : DuplicateGroup),
        ((n', d) ∈ (findCollectionsAndEpisodes (fun _ => some [⟨"show.mkv"⟩])
            [(⟨some 1, some "X", some 5000000⟩ : Torrent),
              ⟨some 2, some "X", some 5000000⟩]).1 ∨
          (n', d) ∈ (findCollectionsAndEpisodes (fun _ => some [⟨"show.mkv"⟩])
            [(⟨some 1, some "X", some 5000000⟩ : Torrent),
              ⟨some 2, some "X", some 5000000⟩]).2) →
        d.collection ≠ t ∧ t ∉ d.episodes :=
  allEqualSize_group_skipped (fun _ => some [⟨"show.mkv"⟩])
    [⟨some 1, some "X", some 5000000⟩, ⟨some 2, some "X", some 5000000⟩] "X"
    [⟨some 1, some "X", some 5000000⟩, ⟨some 2, some "X", some 5000000⟩]
    (by decide) (by decide) (by decide)

/-- **C8 is false as stated**: an item with a missing size is *not*
excluded.  With two items named "X" — id 1 with no size, id 2 with size
5000000 — and identical one-file manifests, the size-less item is
grouped, wins the sort (no swap fires against an unknown size), becomes
the candidate collection, and the sized item lands in
`duplicateEpisodes` of an actionable group. -/
theorem missing_size_not_excluded :
    (⟨some 1, some "X", none⟩ : Torrent).sizeWhenDone = none ∧
      findCollectionsAndEpisodes
        (fun i => if i = 1 then some [⟨"show.mkv"⟩]
          else if i = 2 then some [⟨"show.mkv"⟩] else none)
        [⟨some 1, some "X", none⟩, ⟨some 2, some "X", some 5000000⟩] =
      ([("X", ⟨⟨some 1, some "X", none⟩, [⟨some 2, some "X", some 5000000⟩], true⟩)], []) := by
  decide

/-- **C8 amended**: every item with a missing *name* is excluded from
grouping and from all classification — it appears in no NameGroup, is
never the collection of a reported group, and never appears among any
reported group's episodes.  (Items with a missing size are grouped
normally; unknown sizes are skipped by the sort's comparisons and
treated as 0 in the tolerance checks.) -/
theorem missing_name_excluded (fetch : Int → Option (List TorrentFile))
    (ts : List Torrent) (t : Torrent) (hname : t.name = none) :
    (∀ (n : String) (g : List Torrent), (n, g) ∈ nameGroups ts → t ∉ g) ∧
      ∀ (n : String) (d : DuplicateGroup),
        ((n, d) ∈ (findCollectionsAndEpisodes fetch ts).1 ∨
          (n, d) ∈ (findCollectionsAndEpisodes fetch ts).2) →
        d.collection ≠ t ∧ t ∉ d.episodes := by
  have hnog : ∀ (n : String) (g : List Torrent), (n, g) ∈ nameGroups ts → t ∉ g := by
    intro n g hg ht
    have := nameGroups_member_name hg ht
    rw [hname] at this
    exact Option.noConfusion this
  refine ⟨hnog, fun n d hd => ?_⟩
  rcases hd with hd | hd
  · obtain ⟨g', hg', ho⟩ := mem_find_actionable.1 hd
    have hmm := processGroup_members (Or.inl ho)
    exact ⟨fun hcol => hnog n g' hg' (hcol ▸ hmm.1), fun hep => hnog n g' hg' (hmm.2 t hep)⟩
  · obtain ⟨g', hg', ho⟩ := mem_find_onlySameSize.1 hd
    have hmm := processGroup_members (Or.inr ho)
    exact ⟨fun hcol => hnog n g' hg' (hcol ▸ hmm.1), fun hep => hnog n g' hg' (hmm.2 t hep)⟩

theorem missing_name_excluded_witness :
    (∀ (n : String) (g : List Torrent),
      (n, g) ∈ nameGroups [(⟨some 7, none, some 42⟩ : Torrent), ⟨some 2, some "X", some 5⟩] →
        (⟨some 7, none, some 42⟩ : Torrent) ∉ g) ∧
      ∀ (n : String) (d : DuplicateGroup),
        ((n, d) ∈ (findCollectionsAndEpisodes (fun _ => none)
            [(⟨some 7, none, some 42⟩ : Torrent), ⟨some 2, some "X", some 5⟩]).1 ∨
          (n, d) ∈ (findCollectionsAndEpisodes (fun _ => none)
            [(⟨some 7, none, some 42⟩ : Torrent), ⟨some 2, some "X", some 5⟩]).2) →
        d.collection ≠ ⟨some 7, none, some 42⟩ ∧ (⟨some 7, none, some 42⟩ : Torrent) ∉ d.episodes :=
  missing_name_excluded (fun _ => none)
    [⟨some 7, none, some 42⟩, ⟨some 2, some "X", some 5⟩] ⟨some 7, none, some 42⟩ (by decide)

example :
    checkActualEpisodeOverlap
      [⟨"S01E01.mkv"⟩, ⟨"S01E02.mkv"⟩, ⟨"S01E03.mkv"⟩] [⟨"S01E02.mkv"⟩] = (true, 1) := by
  decide

example :
    (checkActualEpisodeOverlap [⟨"S01E01.mkv"⟩, ⟨"S01E02.mkv"⟩] [⟨"S03E01.mkv"⟩]).1 = false := by
  decide

example : extractEpisodeMarker "dir/Show.S01E02.mkv" = "S01E02".toList := by decide

example : getFileName "a/b/c.mkv" = "c.mkv".toList := by decide
